import Mathlib

/-!
Verification of the cross-process coordination layer of the talkback CLI
(priority message queue, playback lock, voice reservation registry,
content-addressed audio cache), shallowly embedded from the TypeScript
sources (src/queue half of cache.ts, validation.ts, locks.ts, cache.ts,
commands/speak.ts).

Filesystem state is modelled explicitly: the queue file as the parsed JSON
value it holds (an `Option Json`, `none` when the file is absent or its text
is not valid JSON), marker files as entries of explicit association lists or
an `Option` slot, and the cache directory as a list of file records.  All
runs are sequential: no interleaving from other processes happens inside a
single modelled operation, matching the repository design notes (whole-file
rewrite, atomic-create markers).
-/

namespace Talkback

/-! ## JSON values (what JSON.parse can return, numbers as integers) -/

/-- Minimal JSON value model: enough to express arbitrary well-formed or
ill-formed queue/lock file contents.  Numbers are modelled as integers,
which is irrelevant to queue validation (no numeric field is validated
there). -/
inductive Json where
  | null : Json
  | bool (b : Bool) : Json
  | num (n : Int) : Json
  | str (s : String) : Json
  | arr (elems : List Json) : Json
  | obj (fields : List (String × Json)) : Json

/-- Field lookup on a JSON object.  JSON.parse keeps the last occurrence of
a duplicated key, so the reversed list is searched.  On non-objects (where
JS property access yields undefined) the result is none. -/
def Json.getField : Json → String → Option Json
  | .obj fields, key => (fields.reverse.find? (fun kv => kv.1 = key)).map (fun kv => kv.2)
  | _, _ => none

/-! ## Data model (validation.ts) -/

/-- Priority levels of a queue message (validation.ts, type Priority). -/
inductive Priority where
  | critical | high | normal | low
deriving DecidableEq, Repr

/-- Speech speeds (constants.ts, type SpeechSpeed). -/
inductive SpeechSpeed where
  | fast | normal | slow
deriving DecidableEq, Repr

/-- One queued utterance (validation.ts, interface Message).  The two
optional fields are Option-valued exactly as they are optional in the
TypeScript interface. -/
structure Message where
  text : String
  voiceId : String
  voiceName : String
  speed : SpeechSpeed
  queuedAt : String
  priority : Option Priority
  whisper : Option Bool
deriving DecidableEq, Repr

def Priority.toStr : Priority → String
  | .critical => "critical"
  | .high => "high"
  | .normal => "normal"
  | .low => "low"

def SpeechSpeed.toStr : SpeechSpeed → String
  | .fast => "fast"
  | .normal => "normal"
  | .slow => "slow"

/-- Decoding of the priority strings accepted by isValidPriority
(validation.ts, VALID_PRIORITIES). -/
def decodePriority : Json → Option Priority
  | .str "critical" => some .critical
  | .str "high" => some .high
  | .str "normal" => some .normal
  | .str "low" => some .low
  | _ => none

/-- Decoding of the speed strings accepted by isValidSpeechSpeed
(validation.ts). -/
def decodeSpeed : Json → Option SpeechSpeed
  | .str "fast" => some .fast
  | .str "normal" => some .normal
  | .str "slow" => some .slow
  | _ => none

/-- Validation and extraction of one queue message, mirroring isValidMessage
(validation.ts): text, voiceId, voiceName, queuedAt must be strings, speed a
valid speed string; priority, when present, a valid priority string;
whisper, when present, a boolean.  Returns none exactly when isValidMessage
returns false. -/
def decodeMessage (j : Json) : Option Message :=
  match j.getField "priority" with
  | some pv =>
    match decodePriority pv with
    | some p => decodeMessageCore j (some p)
    | none => none
  | none => decodeMessageCore j none
where
  /-- Handles the non-priority fields once the optional priority is settled. -/
  decodeMessageCore (j : Json) (prio : Option Priority) : Option Message :=
    match j.getField "whisper" with
    | some (.bool w) => decodeMessageFields j prio (some w)
    | some _ => none
    | none => decodeMessageFields j prio none
  /-- Handles the five mandatory fields. -/
  decodeMessageFields (j : Json) (prio : Option Priority) (wh : Option Bool) : Option Message :=
    match j.getField "text", j.getField "voiceId", j.getField "voiceName",
        j.getField "speed", j.getField "queuedAt" with
    | some (.str text), some (.str voiceId), some (.str voiceName), some sp, some (.str queuedAt) =>
      match decodeSpeed sp with
      | some speed =>
        some { text := text, voiceId := voiceId, voiceName := voiceName,
               speed := speed, queuedAt := queuedAt, priority := prio, whisper := wh }
      | none => none
    | _, _, _, _, _ => none

/-- List form of isValidMessageQueue: every element must decode. -/
def decodeMessageList : List Json → Option (List Message)
  | [] => some []
  | j :: rest =>
    match decodeMessage j, decodeMessageList rest with
    | some m, some ms => some (m :: ms)
    | _, _ => none

/-- parseMessageQueue (validation.ts): the JSON value must be an array whose
elements all pass isValidMessage; otherwise the parse throws, modelled as
none. -/
def parseMessageQueue : Json → Option (List Message)
  | .arr elems => decodeMessageList elems
  | _ => none

/-- JSON encoding of a Message as JSON.stringify produces it: the optional
fields are emitted only when present (undefined fields are dropped by
JSON.stringify). -/
def encodeMessage (m : Message) : Json :=
  .obj ([("text", .str m.text), ("voiceId", .str m.voiceId),
         ("voiceName", .str m.voiceName), ("speed", .str m.speed.toStr),
         ("queuedAt", .str m.queuedAt)]
    ++ (match m.priority with
        | some p => [("priority", .str p.toStr)]
        | none => [])
    ++ (match m.whisper with
        | some w => [("whisper", .bool w)]
        | none => []))

/-- JSON encoding of a whole queue (the array JSON.stringify writes). -/
def encodeQueue (q : List Message) : Json :=
  .arr (q.map encodeMessage)

/-! ## Message queue (queue module: addToQueue / takeFromQueue / readQueue) -/

/-- PRIORITY_ORDER (queue module): lower number = higher priority. -/
def PRIORITY_ORDER : Priority → Nat
  | .critical => 0
  | .high => 1
  | .normal => 2
  | .low => 3

/-- Priority rank of a message, with the `?? "normal"` default applied. -/
def msgRank (m : Message) : Nat :=
  PRIORITY_ORDER (m.priority.getD .normal)

/-- Insertion-index computation of addToQueue: the index of the first entry
whose priority number is strictly greater (strictly lower priority) than the
number of the new message, defaulting to the queue length. -/
def findInsertIndex (p : Nat) : List Message → Nat
  | [] => 0
  | e :: rest => if p < msgRank e then 0 else findInsertIndex p rest + 1

/-- Array.prototype.splice insertion at an index. -/
def insertAt (x : Message) : Nat → List Message → List Message
  | 0, l => x :: l
  | _ + 1, [] => [x]
  | n + 1, e :: rest => e :: insertAt x n rest

/-- Pure core of addToQueue: priority insertion into the loaded queue. -/
def insertByPriority (q : List Message) (m : Message) : List Message :=
  insertAt m (findInsertIndex (msgRank m) q) q

/-- readQueue (queue module): reads and parses the queue file, returning the
default empty queue when the file is missing, its text is not JSON (both
modelled as the none file state), or validation fails. -/
def readQueue (file : Option Json) : List Message :=
  match file with
  | none => []
  | some j =>
    match parseMessageQueue j with
    | some q => q
    | none => []

/-- addToQueue (queue module): load, insert by priority, persist the whole
sequence.  The result is the new queue file content. -/
def addToQueue (file : Option Json) (m : Message) : Option Json :=
  some (encodeQueue (insertByPriority (readQueue file) m))

/-- takeFromQueue (queue module): load, return null leaving the file alone
when empty, otherwise shift the head and persist the remainder. -/
def takeFromQueue (file : Option Json) : Option Message × Option Json :=
  match readQueue file with
  | [] => (none, file)
  | m :: rest => (some m, some (encodeQueue rest))

/-! ## Round-trip of the queue encoding -/

theorem getField_encodeMessage_text (m : Message) :
    (encodeMessage m).getField "text" = some (.str m.text) := by
  cases m with
  | mk text voiceId voiceName speed queuedAt priority whisper =>
    cases priority <;> cases whisper <;> rfl

theorem decodePriority_toStr (p : Priority) :
    decodePriority (.str p.toStr) = some p := by
  cases p <;> rfl

theorem decodeSpeed_toStr (s : SpeechSpeed) :
    decodeSpeed (.str s.toStr) = some s := by
  cases s <;> rfl

theorem decodeMessage_encodeMessage (m : Message) :
    decodeMessage (encodeMessage m) = some m := by
  cases m with
  | mk text voiceId voiceName speed queuedAt priority whisper =>
    cases priority <;> cases whisper <;>
      simp [encodeMessage, decodeMessage, Json.getField,
        decodeMessage.decodeMessageCore, decodeMessage.decodeMessageFields,
        decodePriority_toStr, decodeSpeed_toStr, List.find?]

theorem parseMessageQueue_encodeQueue (q : List Message) :
    parseMessageQueue (encodeQueue q) = some q := by
  induction q with
  | nil => rfl
  | cons m rest ih =>
    simp only [encodeQueue, List.map, parseMessageQueue] at ih ⊢
    simp [decodeMessageList, decodeMessage_encodeMessage, ih]

theorem readQueue_encodeQueue (q : List Message) :
    readQueue (some (encodeQueue q)) = q := by
  simp [readQueue, parseMessageQueue_encodeQueue]

/-! ## Structure of the priority insertion -/

/-- The insertion of addToQueue splits the queue at the first entry of
strictly lower priority: everything of equal-or-higher priority stays in
front of the new message. -/
theorem insertByPriority_eq_takeWhile_dropWhile (q : List Message) (m : Message) :
    insertByPriority q m
      = q.takeWhile (fun e => !decide (msgRank m < msgRank e))
        ++ m :: q.dropWhile (fun e => !decide (msgRank m < msgRank e)) := by
  induction q with
  | nil => rfl
  | cons e rest ih =>
    by_cases hlt : msgRank m < msgRank e
    · simp [insertByPriority, findInsertIndex, hlt, insertAt, List.takeWhile_cons,
        List.dropWhile_cons]
    · simp only [insertByPriority, findInsertIndex, hlt, if_false, insertAt,
        List.takeWhile_cons, List.dropWhile_cons, decide_eq_true_eq] at ih ⊢
      simp [hlt, ih]

theorem mem_insertByPriority {q : List Message} {m x : Message}
    (hx : x ∈ insertByPriority q m) : x = m ∨ x ∈ q := by
  rw [insertByPriority_eq_takeWhile_dropWhile] at hx
  rcases List.mem_append.mp hx with h | h
  · exact Or.inr ((List.takeWhile_sublist _).subset h)
  · rcases List.mem_cons.mp h with h | h
    · exact Or.inl h
    · exact Or.inr ((List.dropWhile_sublist _).subset h)

/-- Priority insertion preserves the queue ordering invariant (sorted by
priority number, FIFO inside a band). -/
theorem pairwise_insertByPriority (q : List Message) (m : Message)
    (h : q.Pairwise (fun a b => msgRank a ≤ msgRank b)) :
    (insertByPriority q m).Pairwise (fun a b => msgRank a ≤ msgRank b) := by
  induction q with
  | nil => simp [insertByPriority, findInsertIndex, insertAt]
  | cons e rest ih =>
    rcases List.pairwise_cons.mp h with ⟨he, hrest⟩
    by_cases hlt : msgRank m < msgRank e
    · have heq : insertByPriority (e :: rest) m = m :: e :: rest := by
        simp [insertByPriority, findInsertIndex, hlt, insertAt]
      rw [heq]
      refine List.pairwise_cons.mpr ⟨?_, h⟩
      intro b hb
      rcases List.mem_cons.mp hb with hb | hb
      · exact hb ▸ Nat.le_of_lt hlt
      · exact Nat.le_trans (Nat.le_of_lt hlt) (he b hb)
    · have heq : insertByPriority (e :: rest) m = e :: insertByPriority rest m := by
        simp [insertByPriority, findInsertIndex, hlt, insertAt]
      rw [heq]
      refine List.pairwise_cons.mpr ⟨?_, ih hrest⟩
      intro b hb
      rcases mem_insertByPriority hb with hb | hb
      · exact hb ▸ Nat.le_of_not_lt hlt
      · exact he b hb

/-! ## Scenario material -/

/-- Sample queue message used in concrete scenarios. -/
def qMsg (t : String) (p : Priority) : Message :=
  { text := t, voiceId := "v1", voiceName := "Alex", speed := .normal,
    queuedAt := "2024-01-01T00:00:00Z", priority := some p, whisper := none }

/-- Iterated dequeue: observes the order takeFromQueue yields entries in. -/
def dequeueAll : Nat → Option Json → List Message
  | 0, _ => []
  | n + 1, file =>
    match takeFromQueue file with
    | (some m, rest) => m :: dequeueAll n rest
    | (none, _) => []

/-- Queue file reached by the five enqueues of the C1 scenario, with
priorities critical, low, normal, critical, high in that arrival order. -/
def c1File : Option Json :=
  addToQueue (addToQueue (addToQueue (addToQueue (addToQueue none
    (qMsg "one" .critical)) (qMsg "two" .low)) (qMsg "three" .normal))
    (qMsg "four" .critical)) (qMsg "five" .high)

/-- C1: enqueue inserts at the first position whose existing entry has a
strictly lower priority rank, so dequeue order is by priority band with
FIFO inside a band; enqueuing priorities critical, low, normal, critical,
high dequeues as critical, critical, high, normal, low with arrival order
kept inside the critical band. -/
theorem c1_enqueue_priority_order (file : Option Json) (q : List Message) (m : Message)
    (hq : q.Pairwise (fun a b => msgRank a ≤ msgRank b)) :
    addToQueue file m = some (encodeQueue (insertByPriority (readQueue file) m)) ∧
    insertByPriority q m
      = q.takeWhile (fun e => !decide (msgRank m < msgRank e))
        ++ m :: q.dropWhile (fun e => !decide (msgRank m < msgRank e)) ∧
    (insertByPriority q m).Pairwise (fun a b => msgRank a ≤ msgRank b) ∧
    dequeueAll 5 c1File
      = [qMsg "one" .critical, qMsg "four" .critical, qMsg "five" .high,
         qMsg "three" .normal, qMsg "two" .low] := by
  refine ⟨rfl, insertByPriority_eq_takeWhile_dropWhile q m,
    pairwise_insertByPriority q m hq, ?_⟩
  decide

/-- C1 witness: the theorem applied at a concrete sorted queue. -/
theorem c1_enqueue_priority_order_witness :
    addToQueue none (qMsg "w" .high)
        = some (encodeQueue (insertByPriority (readQueue none) (qMsg "w" .high))) ∧
    insertByPriority [qMsg "a" .critical, qMsg "b" .low] (qMsg "w" .high)
      = [qMsg "a" .critical, qMsg "b" .low].takeWhile
          (fun e => !decide (msgRank (qMsg "w" .high) < msgRank e))
        ++ qMsg "w" .high :: [qMsg "a" .critical, qMsg "b" .low].dropWhile
          (fun e => !decide (msgRank (qMsg "w" .high) < msgRank e)) ∧
    (insertByPriority [qMsg "a" .critical, qMsg "b" .low] (qMsg "w" .high)).Pairwise
      (fun a b => msgRank a ≤ msgRank b) ∧
    dequeueAll 5 c1File
      = [qMsg "one" .critical, qMsg "four" .critical, qMsg "five" .high,
         qMsg "three" .normal, qMsg "two" .low] :=
  c1_enqueue_priority_order none [qMsg "a" .critical, qMsg "b" .low] (qMsg "w" .high)
    (by decide)

/-- C6: any queue file content that is invalid JSON (the none file state) or
fails queue validation loads as the empty queue without raising, and the
next enqueue persists a one-element queue that loads back intact. -/
theorem c6_corrupt_queue_resets (content : Option Json) (m : Message)
    (hbad : content = none ∨ ∃ j, content = some j ∧ parseMessageQueue j = none) :
    readQueue content = [] ∧
    addToQueue content m = some (encodeQueue [m]) ∧
    readQueue (addToQueue content m) = [m] := by
  have hempty : readQueue content = [] := by
    rcases hbad with h | ⟨j, hj, hbadj⟩
    · rw [h]; rfl
    · rw [hj]; simp [readQueue, hbadj]
  refine ⟨hempty, ?_, ?_⟩
  · rw [addToQueue, hempty]; rfl
  · rw [addToQueue, hempty]
    exact readQueue_encodeQueue [m]

/-- C6 witness: a queue file holding a JSON string (valid JSON, invalid
queue) resets to empty and accepts the next enqueue. -/
theorem c6_corrupt_queue_resets_witness :
    readQueue (some (.str "oops")) = [] ∧
    addToQueue (some (.str "oops")) (qMsg "hello" .normal)
      = some (encodeQueue [qMsg "hello" .normal]) ∧
    readQueue (addToQueue (some (.str "oops")) (qMsg "hello" .normal))
      = [qMsg "hello" .normal] :=
  c6_corrupt_queue_resets (some (.str "oops")) (qMsg "hello" .normal)
    (Or.inr ⟨.str "oops", rfl, rfl⟩)

/-- C10: a dequeue that finds the queue empty returns null and leaves the
persisted queue file exactly as it was; the remainder is written back only
when an entry was actually removed. -/
theorem c10_empty_dequeue_frame (file : Option Json)
    (hempty : readQueue file = []) :
    takeFromQueue file = (none, file) := by
  simp [takeFromQueue, hempty]

/-- C10 witness: the empty persisted queue file is untouched by dequeue. -/
theorem c10_empty_dequeue_frame_witness :
    takeFromQueue (some (.arr [])) = (none, some (.arr [])) :=
  c10_empty_dequeue_frame (some (.arr [])) rfl

/-! ## Playback lock (queue module: acquirePlaybackLock / releasePlaybackLock)

The play.lock marker file is modelled as an `Option (Option Nat)`: none
when the file is absent, `some c` when it exists, where `c` is the result
of parseInt on its text (none when the text does not parse to a pid).
Process liveness (process.kill(pid, 0)) is a boolean predicate passed in. -/

/-- isLockStale (queue module): the marker is stale when the file cannot be
read, its content is not a number, or the recorded process is dead. -/
def isLockStale (alive : Nat → Bool) (marker : Option (Option Nat)) : Bool :=
  match marker with
  | none => true
  | some none => true
  | some (some pid) => !alive pid

/-- acquirePlaybackLock (queue module) with an explicit recursion budget:
exclusive creation succeeds exactly when no marker file exists and records
the caller pid; on an existing stale marker the file is unlinked and the
call retries itself; on an existing live marker it fails without touching
the file.  The fuel counts how many attempts the recursion may still make;
none means the budget was exhausted before an attempt completed. -/
def acquirePlaybackLockFuel (alive : Nat → Bool) (pid : Nat) :
    Nat → Option (Option Nat) → Option (Bool × Option (Option Nat))
  | 0, _ => none
  | _ + 1, none => some (true, some (some pid))
  | fuel + 1, some c =>
    if isLockStale alive (some c) then
      acquirePlaybackLockFuel alive pid fuel none
    else
      some (false, some c)

/-- acquirePlaybackLock: two attempts always suffice (proved below), so the
function is run with fuel 2. -/
def acquirePlaybackLock (alive : Nat → Bool) (pid : Nat)
    (marker : Option (Option Nat)) : Bool × Option (Option Nat) :=
  (acquirePlaybackLockFuel alive pid 2 marker).getD (false, marker)

/-- releasePlaybackLock (queue module): unlinks the marker file
unconditionally. -/
def releasePlaybackLock (_marker : Option (Option Nat)) : Option (Option Nat) :=
  none

/-- Any fuel of at least 2 gives the same outcome as fuel 2: the recursion
of acquirePlaybackLock never goes deeper than one retry. -/
theorem acquirePlaybackLockFuel_bounded (alive : Nat → Bool) (pid : Nat)
    (marker : Option (Option Nat)) :
    ∀ n, 2 ≤ n →
      acquirePlaybackLockFuel alive pid n marker
        = acquirePlaybackLockFuel alive pid 2 marker := by
  intro n hn
  match n, hn with
  | m + 2, _ =>
    match marker with
    | none => rfl
    | some c =>
      show (if isLockStale alive (some c) then
              acquirePlaybackLockFuel alive pid (m + 1) none
            else some (false, some c)) = _
      by_cases hs : isLockStale alive (some c)
      · simp [hs, acquirePlaybackLockFuel]
      · simp [hs, acquirePlaybackLockFuel]

/-- C2: while a live distinct owner holds the playback lock marker, a
second acquire returns false and leaves the marker untouched; after the
holder releases, the same caller acquires successfully; acquisition on a
free marker always succeeds recording the caller pid, so the single marker
slot only ever holds one live owner. -/
theorem c2_playback_lock_exclusion (alive : Nat → Bool) (p q : Nat)
    (marker : Option (Option Nat)) (hheld : marker = some (some p))
    (halive : alive p = true) (_hne : q ≠ p) :
    acquirePlaybackLock alive q marker = (false, marker) ∧
    acquirePlaybackLock alive q (releasePlaybackLock marker) = (true, some (some q)) ∧
    acquirePlaybackLock alive p none = (true, some (some p)) := by
  subst hheld
  refine ⟨?_, rfl, rfl⟩
  simp [acquirePlaybackLock, acquirePlaybackLockFuel, isLockStale, halive]

/-- C2 witness: owner pid 10 is alive, pid 20 contends. -/
theorem c2_playback_lock_exclusion_witness :
    acquirePlaybackLock (fun pid => pid = 10) 20 (some (some 10))
        = (false, some (some 10)) ∧
    acquirePlaybackLock (fun pid => pid = 10) 20
        (releasePlaybackLock (some (some 10))) = (true, some (some 20)) ∧
    acquirePlaybackLock (fun pid => pid = 10) 10 none = (true, some (some 10)) :=
  c2_playback_lock_exclusion (fun pid => pid = 10) 10 20 (some (some 10)) rfl
    (by decide) (by decide)

/-- C4: when the existing marker names a dead owner, acquire deletes the
stale marker and retries exactly once: fuel 1 (no retry allowed) is not
enough, fuel 2 completes with success, any larger budget changes nothing,
and the reclaiming caller ends up owning the marker. -/
theorem c4_stale_lock_reclaim (alive : Nat → Bool) (pid p : Nat)
    (marker : Option (Option Nat)) (hheld : marker = some (some p))
    (hdead : alive p = false) :
    acquirePlaybackLock alive pid marker = (true, some (some pid)) ∧
    acquirePlaybackLockFuel alive pid 1 marker = none ∧
    acquirePlaybackLockFuel alive pid 2 marker = some (true, some (some pid)) ∧
    (∀ n, 2 ≤ n →
      acquirePlaybackLockFuel alive pid n marker
        = acquirePlaybackLockFuel alive pid 2 marker) := by
  subst hheld
  refine ⟨?_, ?_, ?_, acquirePlaybackLockFuel_bounded alive pid _⟩ <;>
    simp [acquirePlaybackLock, acquirePlaybackLockFuel, isLockStale, hdead]

/-- C4 witness: owner pid 10 is dead, pid 20 reclaims. -/
theorem c4_stale_lock_reclaim_witness :
    acquirePlaybackLock (fun _ => false) 20 (some (some 10)) = (true, some (some 20)) ∧
    acquirePlaybackLockFuel (fun _ => false) 20 1 (some (some 10)) = none ∧
    acquirePlaybackLockFuel (fun _ => false) 20 2 (some (some 10))
        = some (true, some (some 20)) ∧
    (∀ n, 2 ≤ n →
      acquirePlaybackLockFuel (fun _ => false) 20 n (some (some 10))
        = acquirePlaybackLockFuel (fun _ => false) 20 2 (some (some 10))) :=
  c4_stale_lock_reclaim (fun _ => false) 20 10 (some (some 10)) rfl rfl

/-! ## Voice reservation registry (locks.ts)

One JSON marker file per voice name under the locks directory.  The
directory is modelled as an association list from voice name to the parsed
marker content; a file whose content fails parseLockFile reads as absent,
exactly as readLock treats it. -/

/-- Parsed voice marker file (validation.ts, interface LockFile). -/
structure LockFile where
  pid : Nat
  reservedAt : String
deriving DecidableEq, Repr

/-- Association list of existing voice marker files. -/
abbrev LocksState := List (String × LockFile)

/-- VOICE_NAMES (voices.ts): Object.keys of US_VOICES in insertion order. -/
def VOICE_NAMES : List String := ["alex", "sam", "jordan", "casey", "morgan"]

/-- readLock (locks.ts): the parsed marker of a voice, none when the file
is missing or corrupted. -/
def readLock (locks : LocksState) (voice : String) : Option LockFile :=
  (locks.find? (fun kv => kv.1 = voice)).map (fun kv => kv.2)

/-- writeLock (locks.ts): overwrites the marker file of a voice. -/
def writeLock (locks : LocksState) (voice : String) (data : LockFile) : LocksState :=
  (voice, data) :: locks.filter (fun kv => kv.1 ≠ voice)

/-- deleteLock (locks.ts): unlinks the marker file of a voice. -/
def deleteLock (locks : LocksState) (voice : String) : LocksState :=
  locks.filter (fun kv => kv.1 ≠ voice)

/-- isAvailable (locks.ts): a voice is free when it has no marker, or a
stale marker, which is deleted on the spot. -/
def isAvailable (alive : Nat → Bool) (locks : LocksState) (voice : String) :
    Bool × LocksState :=
  match readLock locks voice with
  | none => (true, locks)
  | some l => if alive l.pid then (false, locks) else (true, deleteLock locks voice)

/-- Loop body of cleanupStaleLocks (locks.ts). -/
def cleanupLoop (alive : Nat → Bool) : List String → LocksState → LocksState
  | [], locks => locks
  | v :: rest, locks =>
    cleanupLoop alive rest
      (match readLock locks v with
       | some l => if alive l.pid then locks else deleteLock locks v
       | none => locks)

/-- cleanupStaleLocks (locks.ts): drops every stale voice marker. -/
def cleanupStaleLocks (alive : Nat → Bool) (locks : LocksState) : LocksState :=
  cleanupLoop alive VOICE_NAMES locks

/-- Scan loop of reserveVoice (locks.ts): takes the first available voice,
writing the marker of the caller. -/
def reserveScan (alive : Nat → Bool) (ppid : Nat) (nowStr : String) :
    List String → LocksState → Option String × LocksState
  | [], locks => (none, locks)
  | v :: rest, locks =>
    let r := isAvailable alive locks v
    if r.1 then (some v, writeLock r.2 v ⟨ppid, nowStr⟩)
    else reserveScan alive ppid nowStr rest r.2

/-- reserveVoice (locks.ts): cleanup of stale markers, then the ordered
scan, reserving under the parent (shell) pid passed as ppid. -/
def reserveVoice (alive : Nat → Bool) (ppid : Nat) (nowStr : String)
    (locks : LocksState) : Option String × LocksState :=
  reserveScan alive ppid nowStr VOICE_NAMES (cleanupStaleLocks alive locks)

/-- Lowercasing of one character, as String.prototype.toLowerCase acts on
the ASCII range (the range all voice names live in). -/
def charToLower (c : Char) : Char :=
  if 65 ≤ c.toNat ∧ c.toNat ≤ 90 then Char.ofNat (c.toNat + 32) else c

/-- Lowercasing of a string, character by character. -/
def strToLower (s : String) : String :=
  String.mk (s.data.map charToLower)

/-- Target resolution of releaseVoice (locks.ts): explicit argument first,
else the TALKBACK_VOICE session binding, both lowercased. -/
def resolveTarget (voiceArg envVoice : Option String) : Option String :=
  match voiceArg with
  | some v => some (strToLower v)
  | none => envVoice.map strToLower

/-- releaseVoice (locks.ts): rejects an unresolvable or unknown target;
reports an absent marker as already free; deletes the marker when the
caller shell owns it or the owner is dead; refuses when a different live
owner holds it. -/
def releaseVoice (alive : Nat → Bool) (ppid : Nat)
    (voiceArg envVoice : Option String) (locks : LocksState) : Bool × LocksState :=
  match resolveTarget voiceArg envVoice with
  | none => (false, locks)
  | some t =>
    if t ∈ VOICE_NAMES then
      match readLock locks t with
      | none => (true, locks)
      | some l =>
        if l.pid = ppid ∨ alive l.pid = false then (true, deleteLock locks t)
        else (false, locks)
    else (false, locks)

/-- Whether a voice is held by a live owner in a given registry state. -/
def heldByLive (alive : Nat → Bool) (locks : LocksState) (voice : String) : Bool :=
  match readLock locks voice with
  | some l => alive l.pid
  | none => false

/-! ### Registry lemmas -/

theorem readLock_writeLock_self (locks : LocksState) (v : String) (d : LockFile) :
    readLock (writeLock locks v d) v = some d := by
  simp [readLock, writeLock, List.find?]

theorem readLock_deleteLock_self (locks : LocksState) (v : String) :
    readLock (deleteLock locks v) v = none := by
  have hp : (fun (a : String × LockFile) => !decide (a.1 = v) && decide (a.1 = v))
      = fun _ => false := by
    funext a; by_cases hv : a.1 = v <;> simp [hv]
  have hnone : locks.find? (fun _ => false) = none :=
    List.find?_eq_none.mpr (fun x _ => by simp)
  simp [readLock, deleteLock, List.find?_filter, hp, hnone]

theorem readLock_deleteLock_ne (locks : LocksState) (v w : String) (h : w ≠ v) :
    readLock (deleteLock locks v) w = readLock locks w := by
  have hp : (fun (a : String × LockFile) => !decide (a.1 = v) && decide (a.1 = w))
      = fun (a : String × LockFile) => decide (a.1 = w) := by
    funext a
    by_cases hw : a.1 = w
    · have hv : ¬ a.1 = v := fun hc => h (hw ▸ hc)
      simp [hw, hv, h]
    · simp [hw]
  simp [readLock, deleteLock, List.find?_filter, hp]

theorem heldByLive_deleteLock_dead (alive : Nat → Bool) (locks : LocksState)
    (v : String) (l : LockFile) (hl : readLock locks v = some l)
    (hdead : alive l.pid = false) (w : String) :
    heldByLive alive (deleteLock locks v) w = heldByLive alive locks w := by
  by_cases hw : w = v
  · subst hw
    simp [heldByLive, readLock_deleteLock_self, hl, hdead]
  · simp [heldByLive, readLock_deleteLock_ne locks v w hw]

theorem isAvailable_fst (alive : Nat → Bool) (locks : LocksState) (v : String) :
    (isAvailable alive locks v).1 = !heldByLive alive locks v := by
  unfold isAvailable heldByLive
  cases hl : readLock locks v with
  | none => rfl
  | some l => cases ha : alive l.pid <;> simp [ha]

theorem heldByLive_isAvailable_snd (alive : Nat → Bool) (locks : LocksState)
    (v w : String) :
    heldByLive alive (isAvailable alive locks v).2 w = heldByLive alive locks w := by
  unfold isAvailable
  cases hl : readLock locks v with
  | none => rfl
  | some l =>
    cases ha : alive l.pid with
    | true => simp [ha]
    | false => simp [ha, heldByLive_deleteLock_dead alive locks v l hl ha w]

theorem heldByLive_cleanupLoop (alive : Nat → Bool) (names : List String) :
    ∀ (locks : LocksState) (w : String),
      heldByLive alive (cleanupLoop alive names locks) w = heldByLive alive locks w := by
  induction names with
  | nil => intro locks w; rfl
  | cons v rest ih =>
    intro locks w
    show heldByLive alive (cleanupLoop alive rest _) w = _
    rw [ih]
    cases hl : readLock locks v with
    | none => rfl
    | some l =>
      cases ha : alive l.pid with
      | true => simp [ha]
      | false => simp [ha, heldByLive_deleteLock_dead alive locks v l hl ha w]

theorem reserveScan_fst (alive : Nat → Bool) (ppid : Nat) (nowStr : String)
    (names : List String) :
    ∀ (locks0 locks : LocksState),
      (∀ w, heldByLive alive locks w = heldByLive alive locks0 w) →
      (reserveScan alive ppid nowStr names locks).1
        = names.find? (fun v => !heldByLive alive locks0 v) := by
  induction names with
  | nil => intro locks0 locks _; rfl
  | cons v rest ih =>
    intro locks0 locks h
    have hfst : (isAvailable alive locks v).1 = !heldByLive alive locks0 v := by
      rw [isAvailable_fst, h v]
    cases hb : heldByLive alive locks0 v with
    | false =>
      have hstep : (reserveScan alive ppid nowStr (v :: rest) locks).1 = some v := by
        simp [reserveScan, hfst, hb]
      rw [hstep]
      simp [List.find?_cons, hb]
    | true =>
      have hnext : ∀ w,
          heldByLive alive (isAvailable alive locks v).2 w
            = heldByLive alive locks0 w := by
        intro w; rw [heldByLive_isAvailable_snd, h w]
      have hstep : reserveScan alive ppid nowStr (v :: rest) locks
          = reserveScan alive ppid nowStr rest (isAvailable alive locks v).2 := by
        simp [reserveScan, hfst, hb]
      rw [hstep, ih locks0 _ hnext]
      simp [List.find?_cons, hb]

theorem reserveScan_writes (alive : Nat → Bool) (ppid : Nat) (nowStr : String)
    (names : List String) :
    ∀ (locks : LocksState) (v : String),
      (reserveScan alive ppid nowStr names locks).1 = some v →
      readLock (reserveScan alive ppid nowStr names locks).2 v
        = some ⟨ppid, nowStr⟩ := by
  induction names with
  | nil => intro locks v hv; simp [reserveScan] at hv
  | cons u rest ih =>
    intro locks v hv
    cases hav : (isAvailable alive locks u).1 with
    | true =>
      have hstep : reserveScan alive ppid nowStr (u :: rest) locks
          = (some u, writeLock (isAvailable alive locks u).2 u ⟨ppid, nowStr⟩) := by
        simp [reserveScan, hav]
      rw [hstep] at hv ⊢
      obtain rfl : u = v := by simpa using hv
      exact readLock_writeLock_self _ _ _
    | false =>
      have hstep : reserveScan alive ppid nowStr (u :: rest) locks
          = reserveScan alive ppid nowStr rest (isAvailable alive locks u).2 := by
        simp [reserveScan, hav]
      rw [hstep] at hv ⊢
      exact ih _ v hv

/-! ### C7 scenario: five reserves, a sixth refusal, release and re-reserve -/

/-- Liveness table of the C7 scenario: pids up to 100 are live shells. -/
def c7Alive : Nat → Bool := fun p => p ≤ 100

/-- First reserve, shell pid 1. -/
def c7r1 : Option String × LocksState := reserveVoice c7Alive 1 "t1" []

/-- Second reserve, shell pid 2. -/
def c7r2 : Option String × LocksState := reserveVoice c7Alive 2 "t2" c7r1.2

/-- Third reserve, shell pid 3. -/
def c7r3 : Option String × LocksState := reserveVoice c7Alive 3 "t3" c7r2.2

/-- Fourth reserve, shell pid 4. -/
def c7r4 : Option String × LocksState := reserveVoice c7Alive 4 "t4" c7r3.2

/-- Fifth reserve, shell pid 5. -/
def c7r5 : Option String × LocksState := reserveVoice c7Alive 5 "t5" c7r4.2

/-- Sixth reserve, shell pid 6: everything is taken by live owners. -/
def c7r6 : Option String × LocksState := reserveVoice c7Alive 6 "t6" c7r5.2

/-- The owner shell (pid 3) releases jordan. -/
def c7rel : Bool × LocksState := releaseVoice c7Alive 3 (some "jordan") none c7r6.2

/-- Next reserve after the release, shell pid 6. -/
def c7r7 : Option String × LocksState := reserveVoice c7Alive 6 "t7" c7rel.2

/-- C7: reserveVoice scans the fixed ordered voice list and returns the
first voice not held by a live owner, reserving it under the parent pid;
none exactly when every voice is held by a live owner.  In the scenario,
five reserves from distinct live shells yield the five distinct names in
list order, the sixth yields none, and after one release the next reserve
returns exactly the freed name. -/
theorem c7_reserve_first_available (alive : Nat → Bool) (ppid : Nat) (nowStr : String)
    (locks : LocksState) :
    (reserveVoice alive ppid nowStr locks).1
        = VOICE_NAMES.find? (fun w => !heldByLive alive locks w) ∧
    ((reserveVoice alive ppid nowStr locks).1 = none →
        ∀ w ∈ VOICE_NAMES, heldByLive alive locks w = true) ∧
    (∀ v, (reserveVoice alive ppid nowStr locks).1 = some v →
        v ∈ VOICE_NAMES ∧ heldByLive alive locks v = false ∧
        readLock (reserveVoice alive ppid nowStr locks).2 v = some ⟨ppid, nowStr⟩) ∧
    (c7r1.1 = some "alex" ∧ c7r2.1 = some "sam" ∧ c7r3.1 = some "jordan" ∧
     c7r4.1 = some "casey" ∧ c7r5.1 = some "morgan" ∧ c7r6.1 = none) ∧
    c7rel.1 = true ∧ c7r7.1 = some "jordan" := by
  have hfind : (reserveVoice alive ppid nowStr locks).1
      = VOICE_NAMES.find? (fun w => !heldByLive alive locks w) :=
    reserveScan_fst alive ppid nowStr VOICE_NAMES locks _
      (fun w => heldByLive_cleanupLoop alive VOICE_NAMES locks w)
  refine ⟨hfind, ?_, ?_, by decide, by decide, by decide⟩
  · intro hnone w hw
    rw [hfind] at hnone
    have := List.find?_eq_none.mp hnone w hw
    simpa using this
  · intro v hv
    have hv2 := hfind ▸ hv
    refine ⟨List.mem_of_find?_eq_some hv2, by simpa using List.find?_some hv2, ?_⟩
    exact reserveScan_writes alive ppid nowStr VOICE_NAMES _ v hv

/-- C7 witness: reserving against a registry where alex is held by a live
owner and sam is free. -/
theorem c7_reserve_first_available_witness :
    (reserveVoice c7Alive 7 "w" [("alex", ⟨1, "t1"⟩)]).1
        = VOICE_NAMES.find? (fun w => !heldByLive c7Alive [("alex", ⟨1, "t1"⟩)] w) ∧
    ((reserveVoice c7Alive 7 "w" [("alex", ⟨1, "t1"⟩)]).1 = none →
        ∀ w ∈ VOICE_NAMES, heldByLive c7Alive [("alex", ⟨1, "t1"⟩)] w = true) ∧
    (∀ v, (reserveVoice c7Alive 7 "w" [("alex", ⟨1, "t1"⟩)]).1 = some v →
        v ∈ VOICE_NAMES ∧ heldByLive c7Alive [("alex", ⟨1, "t1"⟩)] v = false ∧
        readLock (reserveVoice c7Alive 7 "w" [("alex", ⟨1, "t1"⟩)]).2 v = some ⟨7, "w"⟩) ∧
    (c7r1.1 = some "alex" ∧ c7r2.1 = some "sam" ∧ c7r3.1 = some "jordan" ∧
     c7r4.1 = some "casey" ∧ c7r5.1 = some "morgan" ∧ c7r6.1 = none) ∧
    c7rel.1 = true ∧ c7r7.1 = some "jordan" :=
  c7_reserve_first_available c7Alive 7 "w" [("alex", ⟨1, "t1"⟩)]

/-- C8: releaseVoice resolves its target from the argument or the session
binding; an unresolvable or unknown target is rejected with false; a
marker held by a different live owner is left alone with false; the marker
is deleted exactly in the owner-or-dead cases, and any change to the
registry implies the caller owned the marker or its owner was dead. -/
theorem c8_release_voice_guards (alive : Nat → Bool) (ppid : Nat) (locks : LocksState)
    (voiceArg envVoice : Option String) (t : String)
    (hres : resolveTarget voiceArg envVoice = some t) :
    releaseVoice alive ppid none none locks = (false, locks) ∧
    (t ∉ VOICE_NAMES → releaseVoice alive ppid voiceArg envVoice locks = (false, locks)) ∧
    (∀ l, t ∈ VOICE_NAMES → readLock locks t = some l → l.pid ≠ ppid →
        alive l.pid = true →
        releaseVoice alive ppid voiceArg envVoice locks = (false, locks)) ∧
    (∀ l, t ∈ VOICE_NAMES → readLock locks t = some l →
        (l.pid = ppid ∨ alive l.pid = false) →
        releaseVoice alive ppid voiceArg envVoice locks = (true, deleteLock locks t)) ∧
    ((releaseVoice alive ppid voiceArg envVoice locks).2 ≠ locks →
        ∃ l, readLock locks t = some l ∧ (l.pid = ppid ∨ alive l.pid = false)) := by
  refine ⟨rfl, ?_, ?_, ?_, ?_⟩
  · intro hmem
    simp [releaseVoice, hres, hmem]
  · intro l hmem hl hpid halive
    have hcond : ¬ (l.pid = ppid ∨ alive l.pid = false) := by
      rintro (h | h)
      · exact hpid h
      · rw [halive] at h; cases h
    simp [releaseVoice, hres, hmem, hl, hcond]
  · intro l hmem hl hcond
    simp [releaseVoice, hres, hmem, hl, hcond]
  · intro hchange
    by_cases hmem : t ∈ VOICE_NAMES
    · cases hl : readLock locks t with
      | none =>
        exact absurd (by simp [releaseVoice, hres, hmem, hl]) hchange
      | some l =>
        by_cases hcond : l.pid = ppid ∨ alive l.pid = false
        · exact ⟨l, rfl, hcond⟩
        · exact absurd (by simp [releaseVoice, hres, hmem, hl, hcond]) hchange
    · exact absurd (by simp [releaseVoice, hres, hmem]) hchange

/-- Liveness table of the C8 witness: only pid 10 is live. -/
def c8Alive : Nat → Bool := fun p => p = 10

/-- C8 witness: shell pid 20 cannot release alex held by live pid 10, and
the mixed-case argument resolves to the lowercase name. -/
theorem c8_release_voice_guards_witness :
    releaseVoice c8Alive 20 none none [("alex", ⟨10, "s"⟩)]
        = (false, [("alex", ⟨10, "s"⟩)]) ∧
    ("alex" ∉ VOICE_NAMES →
        releaseVoice c8Alive 20 (some "Alex") none [("alex", ⟨10, "s"⟩)]
          = (false, [("alex", ⟨10, "s"⟩)])) ∧
    (∀ l, "alex" ∈ VOICE_NAMES →
        readLock [("alex", ⟨10, "s"⟩)] "alex" = some l → l.pid ≠ 20 →
        c8Alive l.pid = true →
        releaseVoice c8Alive 20 (some "Alex") none [("alex", ⟨10, "s"⟩)]
          = (false, [("alex", ⟨10, "s"⟩)])) ∧
    (∀ l, "alex" ∈ VOICE_NAMES →
        readLock [("alex", ⟨10, "s"⟩)] "alex" = some l →
        (l.pid = 20 ∨ c8Alive l.pid = false) →
        releaseVoice c8Alive 20 (some "Alex") none [("alex", ⟨10, "s"⟩)]
          = (true, deleteLock [("alex", ⟨10, "s"⟩)] "alex")) ∧
    ((releaseVoice c8Alive 20 (some "Alex") none [("alex", ⟨10, "s"⟩)]).2
        ≠ [("alex", ⟨10, "s"⟩)] →
        ∃ l, readLock [("alex", ⟨10, "s"⟩)] "alex" = some l ∧
          (l.pid = 20 ∨ c8Alive l.pid = false)) :=
  c8_release_voice_guards c8Alive 20 [("alex", ⟨10, "s"⟩)]
    (some "Alex") none "alex" (by decide)

/-! ## Drain loop (commands/speak.ts, processQueue)

The loop body of processQueue is embedded over the decoded queue: the
round-trip theorems above justify reading the sequence of takeFromQueue
results as the message list.  Synthesis (textToSpeech) and playback
(playAudio) are external collaborators, passed in as functions that either
succeed or throw; the audio cache is carried explicitly. -/

/-- CacheKey (cache.ts): the tuple the fingerprint is derived from. -/
structure CacheKey where
  text : String
  voiceId : String
  speed : SpeechSpeed
deriving DecidableEq, Repr

/-- Cache key built by processQueue for one message: the whisper suffix is
folded into the voiceId component exactly when whisper mode is active. -/
def processCacheKey (m : Message) : CacheKey :=
  { text := m.text,
    voiceId := m.voiceId ++ (if m.whisper.getD false then ":whisper" else ""),
    speed := m.speed }

/-- Cache contents: key to audio bytes. -/
abbrev CacheMap := List (CacheKey × List Nat)

/-- getFromCache (cache.ts), restricted to content lookup (the mtime touch
is part of the eviction model below). -/
def getFromCache (cache : CacheMap) (k : CacheKey) : Option (List Nat) :=
  (cache.find? (fun kv => kv.1 = k)).map (fun kv => kv.2)

/-- saveToCache (cache.ts): unconditional overwrite-safe write. -/
def saveToCache (cache : CacheMap) (k : CacheKey) (audio : List Nat) : CacheMap :=
  (k, audio) :: cache

/-- External collaborators of the drain loop.  fallbackActive packages the
condition localFallback && fallbackText && isLocalTTSAvailable() of the
catch branch. -/
structure DrainEnv where
  synth : Message → Except String (List Nat)
  play : List Nat → Except String Unit
  fallbackActive : Bool

/-- Error line printed by the catch branch of the drain loop. -/
def reportError (fallbackActive : Bool) (msg : String) : String :=
  if fallbackActive then "API error, using local TTS: " ++ msg
  else "Error: " ++ msg

/-- Body of one drain iteration (the try block): cache hit plays the
cached audio; otherwise synthesis, then save, then playback.  Any throw
surfaces as an error value, caught by the loop. -/
def serviceMessage (env : DrainEnv) (cache : CacheMap) (m : Message) :
    Except String Unit × CacheMap :=
  let key := processCacheKey m
  match getFromCache cache key with
  | some audio => (env.play audio, cache)
  | none =>
    match env.synth m with
    | .error e => (.error e, cache)
    | .ok audio =>
      let cache2 := saveToCache cache key audio
      match env.play audio with
      | .error e => (.error e, cache2)
      | .ok _ => (.ok (), cache2)

/-- Outcome of a drain: which messages were fully serviced, which error
lines were reported, and the final cache. -/
structure DrainResult where
  played : List Message
  errors : List String
  cache : CacheMap
deriving DecidableEq, Repr

/-- The while loop of processQueue: every entry is serviced once; a
failure is reported and the loop continues with the next entry. -/
def drainLoop (env : DrainEnv) : List Message → CacheMap → DrainResult
  | [], cache => ⟨[], [], cache⟩
  | m :: rest, cache =>
    match serviceMessage env cache m with
    | (.ok _, cache2) =>
      let r := drainLoop env rest cache2
      ⟨m :: r.played, r.errors, r.cache⟩
    | (.error e, cache2) =>
      let r := drainLoop env rest cache2
      ⟨r.played, reportError env.fallbackActive e :: r.errors, r.cache⟩

/-- Outcome of processQueue including the playback lock marker. -/
structure ProcessResult where
  marker : Option (Option Nat)
  played : List Message
  errors : List String
  cache : CacheMap
deriving DecidableEq, Repr

/-- processQueue (commands/speak.ts): return immediately when the playback
lock is not acquired; otherwise drain and release the lock in the finally
block, whatever happened inside the loop. -/
def processQueue (env : DrainEnv) (alive : Nat → Bool) (pid : Nat)
    (marker : Option (Option Nat)) (queue : List Message) (cache : CacheMap) :
    ProcessResult :=
  let a := acquirePlaybackLock alive pid marker
  if a.1 then
    let r := drainLoop env queue cache
    ⟨releasePlaybackLock a.2, r.played, r.errors, r.cache⟩
  else
    ⟨a.2, [], [], cache⟩

/-- Every queue entry is either serviced or reported: no entry stops the
loop. -/
theorem drainLoop_length (env : DrainEnv) (queue : List Message) (cache : CacheMap) :
    (drainLoop env queue cache).played.length
      + (drainLoop env queue cache).errors.length = queue.length := by
  induction queue generalizing cache with
  | nil => rfl
  | cons m rest ih =>
    rcases hs : serviceMessage env cache m with ⟨res, cache2⟩
    cases res with
    | ok u =>
      simp only [drainLoop, hs, List.length_cons]
      have := ih cache2
      omega
    | error e =>
      simp only [drainLoop, hs, List.length_cons]
      have := ih cache2
      omega

/-! ### C3 scenario: three entries, the middle synthesis fails -/

/-- The three scenario messages. -/
def c3m1 : Message := qMsg "one" .normal

/-- Second scenario message, whose synthesis will fail. -/
def c3m2 : Message := qMsg "two" .normal

/-- Third scenario message. -/
def c3m3 : Message := qMsg "three" .normal

/-- Scenario collaborators: synthesis throws exactly on the middle entry,
playback always succeeds, no local fallback. -/
def c3Env : DrainEnv :=
  { synth := fun m => if m.text = "two" then .error "boom" else .ok [1],
    play := fun _ => .ok (),
    fallbackActive := false }

/-- C3: whenever the playback lock is acquired, the drain services or
reports every entry (one error line per failing entry, the loop never
stops early) and the finally block leaves the lock marker released; in the
three-entry scenario with the middle synthesis failing, entries one and
three are played, exactly one error is reported, and the lock ends
released. -/
theorem c3_drain_partial_failure (env : DrainEnv) (alive : Nat → Bool) (pid : Nat)
    (marker : Option (Option Nat)) (queue : List Message) (cache : CacheMap)
    (hacq : (acquirePlaybackLock alive pid marker).1 = true) :
    (processQueue env alive pid marker queue cache).marker = none ∧
    (processQueue env alive pid marker queue cache).played.length
      + (processQueue env alive pid marker queue cache).errors.length
      = queue.length ∧
    processQueue c3Env c7Alive 9 none [c3m1, c3m2, c3m3] []
      = ⟨none, [c3m1, c3m3], ["Error: boom"],
         [(processCacheKey c3m3, [1]), (processCacheKey c3m1, [1])]⟩ := by
  refine ⟨?_, ?_, by decide⟩
  · simp [processQueue, hacq, releasePlaybackLock]
  · simp only [processQueue, hacq, if_true]
    exact drainLoop_length env queue cache

/-- C3 witness: the scenario inputs themselves acquire the lock. -/
theorem c3_drain_partial_failure_witness :
    (processQueue c3Env c7Alive 9 none [c3m1, c3m2, c3m3] []).marker = none ∧
    (processQueue c3Env c7Alive 9 none [c3m1, c3m2, c3m3] []).played.length
      + (processQueue c3Env c7Alive 9 none [c3m1, c3m2, c3m3] []).errors.length
      = [c3m1, c3m2, c3m3].length ∧
    processQueue c3Env c7Alive 9 none [c3m1, c3m2, c3m3] []
      = ⟨none, [c3m1, c3m3], ["Error: boom"],
         [(processCacheKey c3m3, [1]), (processCacheKey c3m1, [1])]⟩ :=
  c3_drain_partial_failure c3Env c7Alive 9 none [c3m1, c3m2, c3m3] [] (by decide)

/-! ## Cache cleanup (cache.ts, cleanupCache)

The cache directory is modelled as the list of FileInfo records the pass
gathers (all .mp3 entries; stat succeeds on each).  Unlinking an existing
file succeeds, unlinking a file already removed by the age pass throws and
is swallowed, leaving the running total untouched, exactly as the catch
blocks do.  Array.prototype.sort with the comparator a.mtime - b.mtime is
modelled by insertion sort on mtime, a sort consistent with the
comparator. -/

/-- One gathered cache file (cache.ts, interface FileInfo; the path field
is the name). -/
structure FileInfo where
  name : String
  mtime : Int
  size : Nat
deriving DecidableEq, Repr

/-- MAX_CACHE_SIZE_MB (cache.ts). -/
def MAX_CACHE_SIZE_MB : Nat := 50

/-- MAX_CACHE_AGE_DAYS (cache.ts). -/
def MAX_CACHE_AGE_DAYS : Nat := 30

/-- Local constant maxSize of cleanupCache, in bytes. -/
def maxSize : Nat := MAX_CACHE_SIZE_MB * 1024 * 1024

/-- Local constant maxAge of cleanupCache, in milliseconds. -/
def maxAge : Int := (MAX_CACHE_AGE_DAYS : Int) * 24 * 60 * 60 * 1000

instance : DecidableRel (fun a b : FileInfo => a.mtime ≤ b.mtime) :=
  fun a b => Int.decLe a.mtime b.mtime

instance : IsTotal FileInfo (fun a b => a.mtime ≤ b.mtime) :=
  ⟨fun a b => Int.le_total a.mtime b.mtime⟩

instance : IsTrans FileInfo (fun a b => a.mtime ≤ b.mtime) :=
  ⟨fun _ _ _ hab hbc => Int.le_trans hab hbc⟩

/-- The size-bound deletion loop of cleanupCache: walk the mtime-sorted
gathered list; stop once the running total is within budget; try to unlink
each entry, decrementing the total only when the unlink succeeds (the
entry still exists). -/
def sizeLoop : List FileInfo → Nat → List FileInfo → List FileInfo
  | [], _, fs => fs
  | info :: rest, total, fs =>
    if total ≤ maxSize then fs
    else if fs.any (fun g => g.name = info.name) then
      sizeLoop rest (total - info.size) (fs.filter (fun g => g.name ≠ info.name))
    else
      sizeLoop rest total fs

/-- cleanupCache (cache.ts): gather every entry, delete the ones older
than maxAge, then, when the total size of the gathered entries (computed
before any deletion) exceeds maxSize, run the size loop over the
mtime-sorted gathered list against the post-age-pass directory. -/
def cleanupCache (now : Int) (files : List FileInfo) : List FileInfo :=
  let afterAge := files.filter (fun f => ¬ (now - f.mtime > maxAge))
  let totalSize := (files.map (fun f => f.size)).sum
  if totalSize > maxSize then
    sizeLoop (List.insertionSort (fun a b => a.mtime ≤ b.mtime) files) totalSize afterAge
  else
    afterAge

/-- The size loop only ever removes files. -/
theorem sizeLoop_subset :
    ∀ (l : List FileInfo) (t : Nat) (fs : List FileInfo),
      ∀ x ∈ sizeLoop l t fs, x ∈ fs := by
  intro l
  induction l with
  | nil => intro t fs x hx; exact hx
  | cons info rest ih =>
    intro t fs x hx
    by_cases ht : t ≤ maxSize
    · simpa [sizeLoop, ht] using hx
    · by_cases hany : fs.any (fun g => g.name = info.name) = true
      · rw [show sizeLoop (info :: rest) t fs
            = sizeLoop rest (t - info.size) (fs.filter (fun g => g.name ≠ info.name))
          from by simp [sizeLoop, ht, hany]] at hx
        exact (List.mem_filter.mp (ih _ _ x hx)).1
      · rw [show sizeLoop (info :: rest) t fs = sizeLoop rest t fs
          from by simp [sizeLoop, ht, hany]] at hx
        exact ih _ _ x hx

/-- LRU shape of the size loop: over a gathered list sorted by mtime with
distinct names, any entry it removes has mtime at most that of any entry
it keeps. -/
theorem sizeLoop_lru :
    ∀ (l : List FileInfo) (t : Nat) (fs : List FileInfo),
      l.Pairwise (fun a b => a.mtime ≤ b.mtime) →
      (l.map FileInfo.name).Nodup →
      (∀ y ∈ fs, y ∈ l) →
      ∀ x ∈ fs, x ∉ sizeLoop l t fs →
        ∀ k ∈ sizeLoop l t fs, x.mtime ≤ k.mtime := by
  intro l
  induction l with
  | nil =>
    intro t fs _ _ _ x hx hxout k hk
    exact absurd hx hxout
  | cons info rest ih =>
    intro t fs hsort hnames hsub x hx hxout k hk
    have hns : (∀ y ∈ rest, ¬ y.name = info.name) ∧ (rest.map FileInfo.name).Nodup := by
      simpa using hnames
    by_cases ht : t ≤ maxSize
    · rw [show sizeLoop (info :: rest) t fs = fs from by simp [sizeLoop, ht]] at hxout
      exact absurd hx hxout
    · by_cases hany : fs.any (fun g => g.name = info.name) = true
      · have hstep : sizeLoop (info :: rest) t fs
            = sizeLoop rest (t - info.size) (fs.filter (fun g => g.name ≠ info.name)) := by
          simp [sizeLoop, ht, hany]
        rw [hstep] at hxout hk
        have hsub2 : ∀ y ∈ fs.filter (fun g => g.name ≠ info.name), y ∈ rest := by
          intro y hy
          obtain ⟨hyfs, hyname⟩ := List.mem_filter.mp hy
          rcases List.mem_cons.mp (hsub y hyfs) with rfl | h
          · simp at hyname
          · exact h
        by_cases hxname : x.name = info.name
        · have hxinfo : x = info := by
            rcases List.mem_cons.mp (hsub x hx) with h | h
            · exact h
            · exact absurd hxname (hns.1 x h)
          subst hxinfo
          have hkrest : k ∈ rest := hsub2 k (sizeLoop_subset _ _ _ k hk)
          exact (List.pairwise_cons.mp hsort).1 k hkrest
        · have hxfs2 : x ∈ fs.filter (fun g => g.name ≠ info.name) :=
            List.mem_filter.mpr ⟨hx, by simpa using hxname⟩
          exact ih _ _ (List.pairwise_cons.mp hsort).2 hns.2 hsub2 x hxfs2 hxout k hk
      · have hstep : sizeLoop (info :: rest) t fs = sizeLoop rest t fs := by
          simp [sizeLoop, ht, hany]
        rw [hstep] at hxout hk
        have hany2 : ∀ g ∈ fs, ¬ g.name = info.name := by simpa using hany
        have hsub2 : ∀ y ∈ fs, y ∈ rest := by
          intro y hy
          rcases List.mem_cons.mp (hsub y hy) with rfl | h
          · exact absurd rfl (hany2 y hy)
          · exact h
        exact ih _ _ (List.pairwise_cons.mp hsort).2 hns.2 hsub2 x hx hxout k hk

/-- Unfolded form of cleanupCache. -/
theorem cleanupCache_eq (now : Int) (files : List FileInfo) :
    cleanupCache now files =
      if (files.map (fun f => f.size)).sum > maxSize then
        sizeLoop (List.insertionSort (fun a b => a.mtime ≤ b.mtime) files)
          ((files.map (fun f => f.size)).sum)
          (files.filter (fun f => ¬ (now - f.mtime > maxAge)))
      else files.filter (fun f => ¬ (now - f.mtime > maxAge)) := rfl

/-- C5, amended: the age pass removes every expired entry; the size pass is
keyed on the total size of the files gathered before the age pass (not the
remaining size); the result only ever shrinks the post-age-pass directory;
and the least-recently-used ordering holds: nothing removed is more recent
than anything kept. -/
theorem c5_cleanup_lru_amended (now : Int) (files : List FileInfo)
    (hnodup : (files.map FileInfo.name).Nodup) :
    (∀ f ∈ files, now - f.mtime > maxAge → f ∉ cleanupCache now files) ∧
    ((files.map (fun f => f.size)).sum ≤ maxSize →
        cleanupCache now files = files.filter (fun f => ¬ (now - f.mtime > maxAge))) ∧
    (∀ k ∈ cleanupCache now files,
        k ∈ files.filter (fun f => ¬ (now - f.mtime > maxAge))) ∧
    (∀ r ∈ files, r ∉ cleanupCache now files →
        ∀ k ∈ cleanupCache now files, r.mtime ≤ k.mtime) := by
  have hsub : ∀ k ∈ cleanupCache now files,
      k ∈ files.filter (fun f => ¬ (now - f.mtime > maxAge)) := by
    intro k hk
    rw [cleanupCache_eq] at hk
    by_cases hgt : (files.map (fun f => f.size)).sum > maxSize
    · rw [if_pos hgt] at hk; exact sizeLoop_subset _ _ _ k hk
    · rwa [if_neg hgt] at hk
  refine ⟨?_, ?_, hsub, ?_⟩
  · intro f _ hexp hin
    have h2 := (List.mem_filter.mp (hsub f hin)).2
    simp only [decide_eq_true_eq] at h2
    exact h2 hexp
  · intro hle
    rw [cleanupCache_eq, if_neg (not_lt.mpr hle)]
  · intro r hr hrout k hk
    have hkage := (List.mem_filter.mp (hsub k hk)).2
    simp only [decide_eq_true_eq, not_lt] at hkage
    by_cases hrA : r ∈ files.filter (fun f => ¬ (now - f.mtime > maxAge))
    · rw [cleanupCache_eq] at hrout hk
      by_cases hgt : (files.map (fun f => f.size)).sum > maxSize
      · rw [if_pos hgt] at hrout hk
        have hperm :=
          List.perm_insertionSort (fun a b : FileInfo => a.mtime ≤ b.mtime) files
        have hsort :=
          List.sorted_insertionSort (fun a b : FileInfo => a.mtime ≤ b.mtime) files
        have hnames :
            ((List.insertionSort (fun a b : FileInfo => a.mtime ≤ b.mtime)
              files).map FileInfo.name).Nodup :=
          ((hperm.map FileInfo.name).nodup_iff).mpr hnodup
        have hsubl : ∀ y ∈ files.filter (fun f => ¬ (now - f.mtime > maxAge)),
            y ∈ List.insertionSort (fun a b : FileInfo => a.mtime ≤ b.mtime) files :=
          fun y hy => (hperm.mem_iff).mpr (List.mem_of_mem_filter hy)
        exact sizeLoop_lru _ _ _ hsort hnames hsubl r hrA hrout k hk
      · rw [if_neg hgt] at hrout; exact absurd hrA hrout
    · have hrexp : now - r.mtime > maxAge := by
        by_contra h
        exact hrA (List.mem_filter.mpr ⟨hr, by simpa using h⟩)
      omega

/-- The stale oversized entry of the C5 counterexample: thirty days old
and alone already past the 50 MB budget. -/
def c5A : FileInfo := ⟨"a", 0, 52428801⟩

/-- The fresh small entry of the C5 counterexample. -/
def c5B : FileInfo := ⟨"b", 2592000001, 100⟩

/-- Clock of the C5 counterexample: just past the max age of c5A. -/
def c5Now : Int := 2592000001

/-- C5 counterexample: after the age pass only the fresh 100-byte entry
remains, far under the size budget, yet cleanupCache still enters the size
pass (the total is computed before the age deletions and failed unlinks of
already-deleted files never decrement it) and deletes the fresh entry
too.  This refutes the claim that entries are deleted beyond the age pass
only while the total remaining size exceeds the fixed max size. -/
theorem c5_cleanup_size_pass_counterexample :
    [c5A, c5B].filter (fun f => ¬ (c5Now - f.mtime > maxAge)) = [c5B] ∧
    (([c5A, c5B].filter (fun f => ¬ (c5Now - f.mtime > maxAge))).map
        (fun f => f.size)).sum ≤ maxSize ∧
    cleanupCache c5Now [c5A, c5B] = [] := by
  refine ⟨by decide, by decide, by decide⟩

/-- C5 witness: the amended theorem applied to the two-file directory of
the counterexample. -/
theorem c5_cleanup_lru_amended_witness :
    (∀ f ∈ [c5A, c5B], c5Now - f.mtime > maxAge → f ∉ cleanupCache c5Now [c5A, c5B]) ∧
    (([c5A, c5B].map (fun f => f.size)).sum ≤ maxSize →
        cleanupCache c5Now [c5A, c5B]
          = [c5A, c5B].filter (fun f => ¬ (c5Now - f.mtime > maxAge))) ∧
    (∀ k ∈ cleanupCache c5Now [c5A, c5B],
        k ∈ [c5A, c5B].filter (fun f => ¬ (c5Now - f.mtime > maxAge))) ∧
    (∀ r ∈ [c5A, c5B], r ∉ cleanupCache c5Now [c5A, c5B] →
        ∀ k ∈ cleanupCache c5Now [c5A, c5B], r.mtime ≤ k.mtime) :=
  c5_cleanup_lru_amended c5Now [c5A, c5B] (by decide)

/-! ## Cache fingerprint (cache.ts, getCacheHash / getCachePath)

getCacheHash feeds the delimiter-separated fields through SHA-256
(createHash("sha256"), input in UTF-8) and keeps the first 16 hex digits.
SHA-256 is embedded below as a pure function on byte lists, words as
naturals reduced modulo 2^32. -/

/-- Reduction of a word modulo 2^32. -/
def w32 (x : Nat) : Nat := x % 4294967296

/-- Rotation of a 32-bit word to the right by n positions. -/
def rotr32 (n x : Nat) : Nat := w32 (Nat.lor (x >>> n) (x <<< (32 - n)))

/-- Three-way xor. -/
def xor3 (a b c : Nat) : Nat := (a ^^^ b) ^^^ c

/-- Big sigma 0 of the SHA-256 compression. -/
def bigSigma0 (x : Nat) : Nat := xor3 (rotr32 2 x) (rotr32 13 x) (rotr32 22 x)

/-- Big sigma 1 of the SHA-256 compression. -/
def bigSigma1 (x : Nat) : Nat := xor3 (rotr32 6 x) (rotr32 11 x) (rotr32 25 x)

/-- Small sigma 0 of the SHA-256 message schedule. -/
def smallSigma0 (x : Nat) : Nat := xor3 (rotr32 7 x) (rotr32 18 x) (x >>> 3)

/-- Small sigma 1 of the SHA-256 message schedule. -/
def smallSigma1 (x : Nat) : Nat := xor3 (rotr32 17 x) (rotr32 19 x) (x >>> 10)

/-- Choice function: bits of f where e is set, of g where it is clear. -/
def chOp (e f g : Nat) : Nat := (e &&& f) ^^^ ((e ^^^ 4294967295) &&& g)

/-- Majority function. -/
def majOp (a b c : Nat) : Nat :=
  Nat.xor (Nat.xor (Nat.land a b) (Nat.land a c)) (Nat.land b c)

/-- The 64 SHA-256 round constants, written in decimal. -/
def sha256K : List Nat :=
  [1116352408, 1899447441, 3049323471, 3921009573,
   961987163, 1508970993, 2453635748, 2870763221,
   3624381080, 310598401, 607225278, 1426881987,
   1925078388, 2162078206, 2614888103, 3248222580,
   3835390401, 4022224774, 264347078, 604807628,
   770255983, 1249150122, 1555081692, 1996064986,
   2554220882, 2821834349, 2952996808, 3210313671,
   3336571891, 3584528711, 113926993, 338241895,
   666307205, 773529912, 1294757372, 1396182291,
   1695183700, 1986661051, 2177026350, 2456956037,
   2730485921, 2820302411, 3259730800, 3345764771,
   3516065817, 3600352804, 4094571909, 275423344,
   430227734, 506948616, 659060556, 883997877,
   958139571, 1322822218, 1537002063, 1747873779,
   1955562222, 2024104815, 2227730452, 2361852424,
   2428436474, 2756734187, 3204031479, 3329325298]

/-- Eight 32-bit hash words. -/
structure Hash8 where
  h0 : Nat
  h1 : Nat
  h2 : Nat
  h3 : Nat
  h4 : Nat
  h5 : Nat
  h6 : Nat
  h7 : Nat
deriving DecidableEq, Repr

/-- The SHA-256 initialisation vector, written in decimal. -/
def sha256H0 : Hash8 :=
  ⟨1779033703, 3144134277, 1013904242, 2773480762,
   1359893119, 2600822924, 528734635, 1541459225⟩

/-- One compression round over working variables a..h (fields h0..h7). -/
def sha256Round (s : Hash8) (k w : Nat) : Hash8 :=
  let t1 := w32 (s.h7 + bigSigma1 s.h4 + chOp s.h4 s.h5 s.h6 + k + w)
  let t2 := w32 (bigSigma0 s.h0 + majOp s.h0 s.h1 s.h2)
  ⟨w32 (t1 + t2), s.h0, s.h1, s.h2, w32 (s.h3 + t1), s.h4, s.h5, s.h6⟩

/-- The 64 rounds over the zipped constants and schedule. -/
def sha256Rounds : List (Nat × Nat) → Hash8 → Hash8
  | [], s => s
  | (k, w) :: rest, s => sha256Rounds rest (sha256Round s k w)

/-- Word-wise addition of hash states modulo 2^32. -/
def addHash (x y : Hash8) : Hash8 :=
  ⟨w32 (x.h0 + y.h0), w32 (x.h1 + y.h1), w32 (x.h2 + y.h2), w32 (x.h3 + y.h3),
   w32 (x.h4 + y.h4), w32 (x.h5 + y.h5), w32 (x.h6 + y.h6), w32 (x.h7 + y.h7)⟩

/-- Big-endian packing of bytes into 32-bit words. -/
def bytesToWords : List Nat → List Nat
  | b0 :: b1 :: b2 :: b3 :: rest =>
    (((b0 * 256 + b1) * 256 + b2) * 256 + b3) :: bytesToWords rest
  | _ => []

/-- Extension of the 16 block words to the full 64-entry schedule. -/
def extendSchedule : List Nat → Nat → List Nat
  | w, 0 => w
  | w, n + 1 =>
    let len := w.length
    let next := w32 (smallSigma1 (w.getD (len - 2) 0) + w.getD (len - 7) 0
      + smallSigma0 (w.getD (len - 15) 0) + w.getD (len - 16) 0)
    extendSchedule (w ++ [next]) n

/-- Message schedule of one 64-byte block. -/
def msgSchedule (block : List Nat) : List Nat :=
  extendSchedule (bytesToWords block) 48

/-- Compression of one block into the running hash. -/
def compressBlock (H : Hash8) (block : List Nat) : Hash8 :=
  addHash H (sha256Rounds (sha256K.zip (msgSchedule block)) H)

/-- Big-endian 8-byte encoding of the bit length. -/
def lenBytes (bitLen : Nat) : List Nat :=
  (List.range 8).map (fun i => (bitLen >>> (56 - 8 * i)) &&& 255)

/-- SHA-256 padding: a 0x80 byte, zeros to 56 mod 64, the 64-bit length. -/
def padMessage (bytes : List Nat) : List Nat :=
  let len := bytes.length
  let zeros := (120 - ((len + 1) % 64)) % 64
  bytes ++ [128] ++ List.replicate zeros 0 ++ lenBytes (len * 8)

/-- Split into 64-byte blocks. -/
def toBlocks : List Nat → List (List Nat)
  | [] => []
  | b :: rest => ((b :: rest).take 64) :: toBlocks ((b :: rest).drop 64)
termination_by l => l.length
decreasing_by simp; omega

/-- Fold of the compression over all blocks. -/
def sha256Blocks : List (List Nat) → Hash8 → Hash8
  | [], H => H
  | b :: rest, H => sha256Blocks rest (compressBlock H b)

/-- SHA-256 digest of a byte list. -/
def sha256Digest (bytes : List Nat) : Hash8 :=
  sha256Blocks (toBlocks (padMessage bytes)) sha256H0

/-- UTF-8 encoding of one character. -/
def utf8EncodeChar (c : Char) : List Nat :=
  let n := c.toNat
  if n < 128 then [n]
  else if n < 2048 then [192 ||| (n >>> 6), 128 ||| (n &&& 63)]
  else if n < 65536 then
    [224 ||| (n >>> 12), 128 ||| ((n >>> 6) &&& 63), 128 ||| (n &&& 63)]
  else
    [240 ||| (n >>> 18), 128 ||| ((n >>> 12) &&& 63),
     128 ||| ((n >>> 6) &&& 63), 128 ||| (n &&& 63)]

/-- UTF-8 encoding of a string, as createHash(...).update(data) consumes
it. -/
def utf8Encode (s : String) : List Nat :=
  (s.data.map utf8EncodeChar).flatten

/-- Lowercase hex digit of a nibble: digits start at codepoint 48, the
letters a to f at codepoint 97. -/
def hexDigitChar (n : Nat) : Char :=
  if n < 10 then Char.ofNat (48 + n) else Char.ofNat (87 + n)

/-- Eight hex digits of one 32-bit word, most significant nibble first. -/
def toHex8Chars (x : Nat) : List Char :=
  (List.range 8).map (fun i => hexDigitChar ((x >>> (28 - 4 * i)) &&& 15))

/-- The 64 hex characters of digest("hex"). -/
def sha256HexChars (s : String) : List Char :=
  let d := sha256Digest (utf8Encode s)
  toHex8Chars d.h0 ++ toHex8Chars d.h1 ++ toHex8Chars d.h2 ++ toHex8Chars d.h3
    ++ toHex8Chars d.h4 ++ toHex8Chars d.h5 ++ toHex8Chars d.h6 ++ toHex8Chars d.h7

/-- Hex digest string. -/
def sha256Hex (s : String) : String :=
  String.mk (sha256HexChars s)

/-- The hashed input of getCacheHash: the delimiter-separated fields. -/
def cacheInput (key : CacheKey) : String :=
  key.text ++ "|" ++ key.voiceId ++ "|" ++ key.speed.toStr

/-- getCacheHash (cache.ts): first 16 hex digits of the SHA-256 of the
delimiter-separated fields (slice(0, 16) of the hex digest). -/
def getCacheHash (key : CacheKey) : String :=
  String.mk ((sha256HexChars (cacheInput key)).take 16)

/-- CACHE_DIR (cache.ts), as an abstract path constant. -/
def CACHE_DIR : String := "~/.talkback/cache"

/-- getCachePath (cache.ts). -/
def getCachePath (key : CacheKey) : String :=
  CACHE_DIR ++ "/" ++ getCacheHash key ++ ".mp3"

theorem toHex8Chars_length (x : Nat) : (toHex8Chars x).length = 8 := by
  simp [toHex8Chars]

theorem sha256HexChars_length (s : String) : (sha256HexChars s).length = 64 := by
  simp [sha256HexChars, toHex8Chars_length]

theorem getCacheHash_length (k : CacheKey) : (getCacheHash k).length = 16 := by
  show (String.mk ((sha256HexChars (cacheInput k)).take 16)).length = 16
  simp [String.length, List.length_take, sha256HexChars_length]

/-- C9: the cache fingerprint is a deterministic function of the tuple
(text, voiceId, speed, whisper): identical tuples give identical cache
paths whatever the other message fields are; the hashed input is exactly
the delimiter-separated fields with the ":whisper" suffix folded into the
voiceId component exactly when whisper is active; the fingerprint is the
fixed-length 16-character truncation of the SHA-256 hex digest; toggling
only the whisper flag changes the hashed input. -/
theorem c9_cache_fingerprint (m1 m2 : Message)
    (htext : m1.text = m2.text) (hvoice : m1.voiceId = m2.voiceId)
    (hspeed : m1.speed = m2.speed)
    (hwhisper : m1.whisper.getD false = m2.whisper.getD false) :
    getCachePath (processCacheKey m1) = getCachePath (processCacheKey m2) ∧
    cacheInput (processCacheKey m1)
      = m1.text ++ "|" ++ m1.voiceId
        ++ (if m1.whisper.getD false then ":whisper" else "") ++ "|" ++ m1.speed.toStr ∧
    (getCacheHash (processCacheKey m1)).length = 16 ∧
    cacheInput (processCacheKey { m1 with whisper := some true })
      ≠ cacheInput (processCacheKey { m1 with whisper := some false }) := by
  refine ⟨?_, ?_, getCacheHash_length _, ?_⟩
  · have hkey : processCacheKey m1 = processCacheKey m2 := by
      simp [processCacheKey, htext, hvoice, hspeed, hwhisper]
    rw [hkey]
  · simp [cacheInput, processCacheKey, String.append_assoc]
  · intro heq
    have e1 : processCacheKey { m1 with whisper := some true }
        = ⟨m1.text, m1.voiceId ++ ":whisper", m1.speed⟩ := rfl
    have e2 : processCacheKey { m1 with whisper := some false }
        = ⟨m1.text, m1.voiceId ++ "", m1.speed⟩ := rfl
    rw [e1, e2] at heq
    have hlen := congrArg String.length heq
    have h8 : (":whisper" : String).length = 8 := rfl
    have h0 : ("" : String).length = 0 := rfl
    simp only [cacheInput, String.length_append, h8, h0] at hlen
    omega

/-- C9 witness: two messages equal on the cache tuple but different in
display name and timestamp share the cache path. -/
theorem c9_cache_fingerprint_witness :
    getCachePath (processCacheKey ⟨"hi", "v1", "Alex", .normal, "t1", none, some true⟩)
      = getCachePath (processCacheKey ⟨"hi", "v1", "Bee", .normal, "t2", some .high, some true⟩) ∧
    cacheInput (processCacheKey ⟨"hi", "v1", "Alex", .normal, "t1", none, some true⟩)
      = "hi" ++ "|" ++ "v1" ++ (if (some true).getD false then ":whisper" else "")
        ++ "|" ++ SpeechSpeed.normal.toStr ∧
    (getCacheHash (processCacheKey ⟨"hi", "v1", "Alex", .normal, "t1", none, some true⟩)).length
      = 16 ∧
    cacheInput (processCacheKey ⟨"hi", "v1", "Alex", .normal, "t1", none, some true⟩)
      ≠ cacheInput (processCacheKey ⟨"hi", "v1", "Alex", .normal, "t1", none, some false⟩) :=
  c9_cache_fingerprint
    ⟨"hi", "v1", "Alex", .normal, "t1", none, some true⟩
    ⟨"hi", "v1", "Bee", .normal, "t2", some .high, some true⟩
    rfl rfl rfl rfl

end Talkback
